import Mathlib

/-!
Verification of the optimization toolkit (`src/utils/optimization.py`):
TTL caches (`MemoryCache`, `FileCache`), the token-bucket `RateLimiter`,
and the `cached` / `rate_limited` wrappers.

The embedding is shallow and faithful to the Python source:
* Python `float` timestamps/token balances are modelled as `ℚ` (exact
  arithmetic; all quantities involved are produced by `+`, `-`, `*`, `/`,
  `min`, comparisons).
* Python dicts keyed by strings are modelled as association lists
  (`List (Key × β)`); `dict` assignment preserves the position of an
  existing key and appends new keys, which `setKey` mirrors.
* The `deque` `_access_order` is a `List Key`; `deque.remove` removes the
  first occurrence, as does `List.erase`.
* `time.time()` is passed explicitly as a `now : ℚ` argument at each call.
* Python values are modelled by `PyVal`, with a distinguished constructor
  for the Python literal `None` (which the code uses both as "miss" and as
  an ordinary value).
-/

abbrev Key := String

/-- A Python value: `None`, an int, or a string. -/
inductive PyVal where
  | none : PyVal
  | int (n : ℤ) : PyVal
  | str (s : String) : PyVal
  deriving DecidableEq, Repr

/-- `CacheEntry` dataclass: value, creation timestamp, TTL, hit counter. -/
structure CacheEntry where
  value : PyVal
  timestamp : ℚ
  ttl : ℚ
  hits : ℕ
  deriving DecidableEq, Repr

/-- `CacheEntry.is_expired`: `time.time() - self.timestamp > self.ttl`. -/
def CacheEntry.is_expired (e : CacheEntry) (now : ℚ) : Bool :=
  e.ttl < now - e.timestamp

/-- `CacheEntry.age`: `time.time() - self.timestamp`. -/
def CacheEntry.age (e : CacheEntry) (now : ℚ) : ℚ :=
  now - e.timestamp

/-! ### Association-list primitives modelling Python `dict` operations -/

/-- `d[k]` / `d.get(k)`: first binding of `k` (unique under the no-dup key
invariant maintained by `setKey`). -/
def lookupKey {β : Type} (k : Key) : List (Key × β) → Option β
  | [] => Option.none
  | (k₂, e) :: rest => if k₂ = k then some e else lookupKey k rest

/-- `del d[k]`: remove the (first) binding of `k`. -/
def removeKey {β : Type} (k : Key) : List (Key × β) → List (Key × β)
  | [] => []
  | (k₂, e) :: rest => if k₂ = k then rest else (k₂, e) :: removeKey k rest

/-- `d[k] = v`: replace in place if `k` is bound, else append. -/
def setKey {β : Type} (k : Key) (v : β) : List (Key × β) → List (Key × β)
  | [] => [(k, v)]
  | (k₂, e) :: rest => if k₂ = k then (k, v) :: rest else (k₂, e) :: setKey k v rest

/-- `deque.remove(key)`: remove the first occurrence. -/
def eraseFirst (k : Key) : List Key → List Key
  | [] => []
  | k₂ :: rest => if k₂ = k then rest else k₂ :: eraseFirst k rest

/-- `if key in order: order.remove(key)` on the access-order deque. -/
def condErase (k : Key) (l : List Key) : List Key :=
  if k ∈ l then eraseFirst k l else l

/-- Python `ttl = ttl or self.default_ttl`: `None` falls back to the
default, and so does `0`, because `0` is falsy in Python. -/
def ttlOrDefault (ttl : Option ℚ) (d : ℚ) : ℚ :=
  match ttl with
  | Option.none => d
  | some t => if t = 0 then d else t

/-! ### MemoryCache -/

structure MemoryCache where
  default_ttl : ℚ
  max_size : ℕ
  cache : List (Key × CacheEntry)
  access_order : List Key
  deriving DecidableEq, Repr

/-- `MemoryCache(default_ttl, max_size)`: empty mapping and order. -/
def mkMemoryCache (default_ttl : ℚ) (max_size : ℕ) : MemoryCache :=
  ⟨default_ttl, max_size, [], []⟩

/-- `MemoryCache.get`: on a fresh hit, bump `hits`, move the key to the
back of the access order and return the value; on an expired entry,
delete it from mapping and order and return `None`; on absence return
`None`. -/
def MemoryCache.get (c : MemoryCache) (now : ℚ) (key : Key) :
    PyVal × MemoryCache :=
  match lookupKey key c.cache with
  | some entry =>
    if entry.is_expired now = false then
      let entry₂ : CacheEntry := { entry with hits := entry.hits + 1 }
      (entry₂.value,
        { c with
            cache := setKey key entry₂ c.cache,
            access_order := condErase key c.access_order ++ [key] })
    else
      (PyVal.none,
        { c with
            cache := removeKey key c.cache,
            access_order := condErase key c.access_order })
  | Option.none => (PyVal.none, c)

/-- The eviction loop of `MemoryCache.set`:
`while len(cache) >= max_size:` pop the least-recently-used key from the
front of the order and delete it from the mapping; `break` when the order
is empty. -/
def evictLoop (max_size : ℕ) :
    List (Key × CacheEntry) → List Key → List (Key × CacheEntry) × List Key
  | cache, [] => (cache, [])
  | cache, k :: rest =>
    if max_size ≤ cache.length then
      evictLoop max_size (removeKey k cache) rest
    else
      (cache, k :: rest)

/-- `MemoryCache.set`: resolve the TTL via `ttl or self.default_ttl`,
drop an existing key from the access order, run the eviction loop, then
insert the fresh entry and append the key to the order. -/
def MemoryCache.set (c : MemoryCache) (now : ℚ) (key : Key) (v : PyVal)
    (ttl : Option ℚ) : MemoryCache :=
  let t := ttlOrDefault ttl c.default_ttl
  let order₁ :=
    if (lookupKey key c.cache).isSome then condErase key c.access_order
    else c.access_order
  let r := evictLoop c.max_size c.cache order₁
  { c with
      cache := setKey key (CacheEntry.mk v now t 0) r.1,
      access_order := r.2 ++ [key] }

/-- `MemoryCache.delete`: remove the entry and its recency record,
returning whether it existed. -/
def MemoryCache.delete (c : MemoryCache) (key : Key) : Bool × MemoryCache :=
  if (lookupKey key c.cache).isSome then
    (true,
      { c with
          cache := removeKey key c.cache,
          access_order := condErase key c.access_order })
  else
    (false, c)

/-- `MemoryCache.clear`. -/
def MemoryCache.clear (c : MemoryCache) : MemoryCache :=
  { c with cache := [], access_order := [] }

/-- `MemoryCache.cleanup_expired`: collect the expired keys, delete each
from the mapping and the order, return the count removed. -/
def MemoryCache.cleanup_expired (c : MemoryCache) (now : ℚ) :
    ℕ × MemoryCache :=
  let expired := (c.cache.filter (fun p => p.2.is_expired now)).map Prod.fst
  (expired.length,
    { c with
        cache := expired.foldl (fun acc k => removeKey k acc) c.cache,
        access_order := expired.foldl (fun acc k => condErase k acc) c.access_order })

/-- Well-formedness of the two structures: the access order is
duplicate-free and is a permutation of the mapping's key list. -/
def MemoryCache.WF (c : MemoryCache) : Prop :=
  c.access_order.Nodup ∧ (c.cache.map Prod.fst).Perm c.access_order

instance (c : MemoryCache) : Decidable c.WF := by
  unfold MemoryCache.WF; infer_instance

/-- One public `MemoryCache` operation, with its wall-clock time where the
Python method reads `time.time()`. -/
inductive MemOp where
  | get (now : ℚ) (k : Key) : MemOp
  | set (now : ℚ) (k : Key) (v : PyVal) (ttl : Option ℚ) : MemOp
  | delete (k : Key) : MemOp
  | clear : MemOp
  | cleanup (now : ℚ) : MemOp

/-- The state transition of one operation. -/
def MemOp.apply (c : MemoryCache) : MemOp → MemoryCache
  | MemOp.get now k => (c.get now k).2
  | MemOp.set now k v ttl => c.set now k v ttl
  | MemOp.delete k => (c.delete k).2
  | MemOp.clear => c.clear
  | MemOp.cleanup now => (c.cleanup_expired now).2

/-- Run a sequence of operations. -/
def runMemOps (c : MemoryCache) (ops : List MemOp) : MemoryCache :=
  ops.foldl MemOp.apply c

/-! ### FileCache

The cache directory is modelled as an association list from cache keys to
file contents; `_get_file_path` maps each key 1:1 to the file
`{dir}/{key}.cache`.  A file holds either a complete pickled `CacheEntry`
(`full`) or bytes from which `pickle.load` / attribute access raises
(`corrupt`, covering unreadable files, truncated writes, and structurally
invalid payloads). -/

inductive FileContent where
  | corrupt : FileContent
  | full (e : CacheEntry) : FileContent
  deriving DecidableEq, Repr

structure FileCache where
  default_ttl : ℚ
  files : List (Key × FileContent)
  deriving DecidableEq, Repr

/-- `pickle.load` followed by the `entry.is_expired` attribute access:
succeeds exactly on a complete serialized `CacheEntry`; everything the
`except Exception` clause of `FileCache.get` catches is `error`. -/
def readEntry : FileContent → Except String CacheEntry
  | FileContent.corrupt => Except.error "unpickling failed"
  | FileContent.full e => Except.ok e

/-- `FileCache.get`: return early on a missing file; treat a failed read
as a miss and best-effort delete the file; delete an expired file; on a
hit persist the incremented `hits` counter. -/
def FileCache.get (fc : FileCache) (now : ℚ) (key : Key) :
    PyVal × FileCache :=
  match lookupKey key fc.files with
  | Option.none => (PyVal.none, fc)
  | some content =>
    match readEntry content with
    | Except.error _ =>
      (PyVal.none, { fc with files := removeKey key fc.files })
    | Except.ok entry =>
      if entry.is_expired now = false then
        let entry₂ : CacheEntry := { entry with hits := entry.hits + 1 }
        (entry₂.value,
          { fc with files := setKey key (FileContent.full entry₂) fc.files })
      else
        (PyVal.none, { fc with files := removeKey key fc.files })

/-- The observable directory states during `FileCache.set`, one per
primitive I/O step: the initial state, the state after `open(path, 'wb')`
has created/truncated `{key}.cache`, and the state after `pickle.dump`
has written the complete entry.  An interrupted write stops after a
proper prefix of the steps. -/
def FileCache.setStates (fc : FileCache) (now : ℚ) (key : Key) (v : PyVal)
    (ttl : Option ℚ) : List FileCache :=
  let t := ttlOrDefault ttl fc.default_ttl
  let entry := CacheEntry.mk v now t 0
  [fc,
    { fc with files := setKey key FileContent.corrupt fc.files },
    { fc with files := setKey key (FileContent.full entry) fc.files }]

/-- `FileCache.set`: the final state of an uninterrupted write. -/
def FileCache.set (fc : FileCache) (now : ℚ) (key : Key) (v : PyVal)
    (ttl : Option ℚ) : FileCache :=
  let t := ttlOrDefault ttl fc.default_ttl
  { fc with files := setKey key (FileContent.full (CacheEntry.mk v now t 0)) fc.files }

/-! ### RateLimiter (token bucket) -/

structure RateLimiter where
  requests_per_window : ℚ
  window_seconds : ℚ
  tokens : ℚ
  last_refill : ℚ
  deriving DecidableEq, Repr

/-- `RateLimiter(requests_per_window, window_seconds)` constructed at
wall-clock time `now`: the bucket starts full. -/
def mkRateLimiter (requests_per_window window_seconds now : ℚ) : RateLimiter :=
  ⟨requests_per_window, window_seconds, requests_per_window, now⟩

/-- `RateLimiter.acquire`: refill proportionally to the elapsed time,
clamped to capacity, stamp `last_refill`, then deduct if the balance
covers the request. -/
def RateLimiter.acquire (s : RateLimiter) (now : ℚ) (req : ℚ) :
    Bool × RateLimiter :=
  let elapsed := now - s.last_refill
  let tokens_to_add := elapsed * (s.requests_per_window / s.window_seconds)
  let tokens₂ := min s.requests_per_window (s.tokens + tokens_to_add)
  if req ≤ tokens₂ then
    (true, { s with tokens := tokens₂ - req, last_refill := now })
  else
    (false, { s with tokens := tokens₂, last_refill := now })

/-- `RateLimiter.wait_time`: computed from the current balance alone —
the Python method reads `self.tokens` without any refill and does not
write any state. -/
def RateLimiter.wait_time (s : RateLimiter) (req : ℚ) : ℚ × RateLimiter :=
  if req ≤ s.tokens then (0, s)
  else ((req - s.tokens) * (s.window_seconds / s.requests_per_window), s)

/-- `RateLimiter.reset`: refill to capacity and stamp `last_refill`. -/
def RateLimiter.reset (s : RateLimiter) (now : ℚ) : RateLimiter :=
  { s with tokens := s.requests_per_window, last_refill := now }

/-- One public `RateLimiter` call. -/
inductive RLOp where
  | acquire (now : ℚ) (req : ℚ) : RLOp
  | waitTime (req : ℚ) : RLOp
  | reset (now : ℚ) : RLOp

/-- The state transition of one call. -/
def RLOp.apply (s : RateLimiter) : RLOp → RateLimiter
  | RLOp.acquire now req => (s.acquire now req).2
  | RLOp.waitTime req => (s.wait_time req).2
  | RLOp.reset now => s.reset now

/-- Run a sequence of calls. -/
def runRLOps (s : RateLimiter) (ops : List RLOp) : RateLimiter :=
  ops.foldl RLOp.apply s

/-- Validity of a call sequence against real time: wall-clock readings
never precede the limiter's `last_refill` stamp (time is monotone), and
requested token counts are nonnegative. -/
def RLOpsValid : RateLimiter → List RLOp → Prop
  | _, [] => True
  | s, op :: rest =>
    (match op with
      | RLOp.acquire now req => s.last_refill ≤ now ∧ 0 ≤ req
      | RLOp.waitTime req => 0 ≤ req
      | RLOp.reset now => s.last_refill ≤ now) ∧
    RLOpsValid (RLOp.apply s op) rest

/-- The token-balance bounds of the spec: `0 ≤ tokens ≤ capacity`. -/
def RateLimiter.InBounds (s : RateLimiter) : Prop :=
  0 ≤ s.tokens ∧ s.tokens ≤ s.requests_per_window

/-! ### The `cached` wrapper (memory-cache flavour)

`cached` computes a deterministic key from the function name and the
arguments, looks it up, and treats any non-`None` result as a hit:
`result = cache.get(key); if result is not None: return result`.
On a miss it invokes the wrapped function, stores the result with the
decorator's `ttl`, and returns it.  The third component counts how often
the wrapped `f` was invoked during the call (0 or 1). -/

def cachedCall (c : MemoryCache) (now : ℚ) (f : PyVal → PyVal) (x : PyVal)
    (key : Key) (ttl : Option ℚ) : PyVal × MemoryCache × ℕ :=
  let r := c.get now key
  if r.1 ≠ PyVal.none then (r.1, r.2, 0)
  else
    let result := f x
    (result, r.2.set now key result ttl, 1)

/-- Two consecutive calls of the `cached` wrapper with the same function,
argument and key: the results of the first and the second call. -/
def cachedCallTwice (c : MemoryCache) (now now₂ : ℚ) (f : PyVal → PyVal)
    (x : PyVal) (key : Key) (ttl : Option ℚ) :
    (PyVal × MemoryCache × ℕ) × (PyVal × MemoryCache × ℕ) :=
  let r₁ := cachedCall c now f x key ttl
  (r₁, cachedCall r₁.2.1 now₂ f x key ttl)

/-! ### The `rate_limited` wrapper

`rate_limited(limiter_name, tokens, wait)`: attempt `acquire`; on failure
with `wait=True`, `time.sleep(limiter.wait_time(tokens))` then `acquire`
once more with the boolean result discarded; with `wait=False` raise.
`return func(...)` runs on every path that does not raise. -/

structure RLCallResult where
  ok₁ : Bool
  ok₂ : Option Bool
  invoked : Bool
  raised : Bool
  state : RateLimiter
  deriving DecidableEq, Repr

def rateLimitedCall (s : RateLimiter) (now : ℚ) (req : ℚ) (wait : Bool) :
    RLCallResult :=
  let r₁ := s.acquire now req
  if r₁.1 then ⟨true, Option.none, true, false, r₁.2⟩
  else if wait then
    let w := (r₁.2.wait_time req).1
    let r₂ := r₁.2.acquire (now + w) req
    ⟨false, some r₂.1, true, false, r₂.2⟩
  else ⟨false, Option.none, false, true, r₁.2⟩

/-! ### Association-list lemmas -/

theorem eraseFirst_eq_erase (k : Key) (l : List Key) :
    eraseFirst k l = l.erase k := by
  induction l with
  | nil => rfl
  | cons hd tl ih =>
    by_cases h : hd = k
    · simp [eraseFirst, h, List.erase_cons]
    · simp [eraseFirst, h, List.erase_cons, ih]

theorem condErase_eq_erase (k : Key) (l : List Key) :
    condErase k l = l.erase k := by
  unfold condErase
  by_cases h : k ∈ l
  · simp [h, eraseFirst_eq_erase]
  · rw [if_neg h, List.erase_of_not_mem h]

theorem lookupKey_eq_none {β : Type} (k : Key) (l : List (Key × β)) :
    lookupKey k l = Option.none ↔ k ∉ l.map Prod.fst := by
  induction l with
  | nil => simp [lookupKey]
  | cons hd tl ih =>
    obtain ⟨k₂, v₂⟩ := hd
    by_cases h : k₂ = k
    · simp [lookupKey, h]
    · simp [lookupKey, h, ih, Ne.symm h]

theorem lookupKey_isSome {β : Type} (k : Key) (l : List (Key × β)) :
    (lookupKey k l).isSome = true ↔ k ∈ l.map Prod.fst := by
  cases hl : lookupKey k l with
  | none =>
    simp only [hl, Option.isSome_none, Bool.false_eq_true, false_iff]
    exact (lookupKey_eq_none k l).mp hl
  | some v =>
    simp only [hl, Option.isSome_some, true_iff]
    by_contra hmem
    have h₂ := (lookupKey_eq_none k l).mpr hmem
    rw [hl] at h₂
    exact Option.noConfusion h₂

theorem map_fst_setKey_mem {β : Type} (k : Key) (v : β) (l : List (Key × β))
    (h : k ∈ l.map Prod.fst) :
    (setKey k v l).map Prod.fst = l.map Prod.fst := by
  induction l with
  | nil => simp at h
  | cons hd tl ih =>
    obtain ⟨k₂, v₂⟩ := hd
    by_cases hk : k₂ = k
    · simp [setKey, hk]
    · simp only [List.map_cons] at h
      simp [setKey, hk, ih (by simpa [Ne.symm hk] using h)]

theorem map_fst_setKey_notMem {β : Type} (k : Key) (v : β) (l : List (Key × β))
    (h : k ∉ l.map Prod.fst) :
    (setKey k v l).map Prod.fst = l.map Prod.fst ++ [k] := by
  induction l with
  | nil => simp [setKey]
  | cons hd tl ih =>
    obtain ⟨k₂, v₂⟩ := hd
    simp only [List.map_cons, List.mem_cons] at h
    push_neg at h
    simp [setKey, Ne.symm h.1, ih h.2]

theorem lookupKey_setKey_self {β : Type} (k : Key) (v : β) (l : List (Key × β)) :
    lookupKey k (setKey k v l) = some v := by
  induction l with
  | nil => simp [setKey, lookupKey]
  | cons hd tl ih =>
    obtain ⟨k₂, v₂⟩ := hd
    by_cases hk : k₂ = k
    · simp [setKey, hk, lookupKey]
    · simp [setKey, hk, lookupKey, ih]

theorem lookupKey_setKey_ne {β : Type} (k k₂ : Key) (v : β) (l : List (Key × β))
    (h : k₂ ≠ k) :
    lookupKey k₂ (setKey k v l) = lookupKey k₂ l := by
  induction l with
  | nil => simp [setKey, lookupKey, Ne.symm h]
  | cons hd tl ih =>
    obtain ⟨k₃, v₃⟩ := hd
    by_cases hk : k₃ = k
    · subst hk
      simp [setKey, lookupKey, Ne.symm h]
    · by_cases hk₂ : k₃ = k₂ <;> simp [setKey, hk, lookupKey, hk₂, ih, h]

theorem map_fst_removeKey {β : Type} (k : Key) (l : List (Key × β)) :
    (removeKey k l).map Prod.fst = (l.map Prod.fst).erase k := by
  induction l with
  | nil => rfl
  | cons hd tl ih =>
    obtain ⟨k₂, v₂⟩ := hd
    by_cases hk : k₂ = k
    · simp [removeKey, hk, List.erase_cons]
    · simp [removeKey, hk, List.erase_cons, ih]

theorem lookupKey_removeKey_ne {β : Type} (k k₂ : Key) (l : List (Key × β))
    (h : k₂ ≠ k) :
    lookupKey k₂ (removeKey k l) = lookupKey k₂ l := by
  induction l with
  | nil => rfl
  | cons hd tl ih =>
    obtain ⟨k₃, v₃⟩ := hd
    by_cases hk : k₃ = k
    · subst hk
      simp [removeKey, lookupKey, Ne.symm h]
    · by_cases hk₂ : k₃ = k₂ <;> simp [removeKey, hk, lookupKey, hk₂, ih, h]

theorem lookupKey_removeKey_self {β : Type} (k : Key) (l : List (Key × β))
    (h : (l.map Prod.fst).Nodup) :
    lookupKey k (removeKey k l) = Option.none := by
  induction l with
  | nil => rfl
  | cons hd tl ih =>
    obtain ⟨k₂, v₂⟩ := hd
    simp only [List.map_cons, List.nodup_cons] at h
    by_cases hk : k₂ = k
    · subst hk
      simp [removeKey, lookupKey_eq_none, h.1]
    · simp [removeKey, hk, lookupKey, hk, ih h.2]

theorem length_removeKey_of_mem {β : Type} (k : Key) (l : List (Key × β))
    (h : k ∈ l.map Prod.fst) :
    (removeKey k l).length + 1 = l.length := by
  have h₁ := congrArg List.length (map_fst_removeKey k l)
  simp only [List.length_map] at h₁
  rw [h₁, List.length_erase_of_mem h]
  have h₂ : (l.map Prod.fst).length = l.length := by simp
  have h₃ : 0 < (l.map Prod.fst).length :=
    List.length_pos.mpr (List.ne_nil_of_mem h)
  omega

theorem length_removeKey_le {β : Type} (k : Key) (l : List (Key × β)) :
    (removeKey k l).length ≤ l.length := by
  have h₁ := congrArg List.length (map_fst_removeKey k l)
  simp only [List.length_map] at h₁
  rw [h₁]
  have h₂ : ((l.map Prod.fst).erase k).length ≤ (l.map Prod.fst).length :=
    (List.erase_sublist k (l.map Prod.fst)).length_le
  simpa using h₂

theorem length_setKey_of_mem {β : Type} (k : Key) (v : β) (l : List (Key × β))
    (h : k ∈ l.map Prod.fst) :
    (setKey k v l).length = l.length := by
  have := congrArg List.length (map_fst_setKey_mem k v l h)
  simpa using this

theorem length_setKey_of_notMem {β : Type} (k : Key) (v : β) (l : List (Key × β))
    (h : k ∉ l.map Prod.fst) :
    (setKey k v l).length = l.length + 1 := by
  have := congrArg List.length (map_fst_setKey_notMem k v l h)
  simpa using this

/-! ### Eviction-loop lemmas -/

theorem evictLoop_spec (m : ℕ) (extra : List Key) :
    ∀ (order : List Key) (cache : List (Key × CacheEntry)),
      (cache.map Prod.fst).Perm (order ++ extra) →
      ((evictLoop m cache order).1.map Prod.fst).Perm
          ((evictLoop m cache order).2 ++ extra) ∧
        (evictLoop m cache order).2.Sublist order ∧
        ((evictLoop m cache order).1.length < m ∨
          (evictLoop m cache order).2 = []) := by
  intro order
  induction order with
  | nil =>
    intro cache hperm
    exact ⟨hperm, List.Sublist.refl _, Or.inr rfl⟩
  | cons k rest ih =>
    intro cache hperm
    by_cases hlen : m ≤ cache.length
    · have hstep : evictLoop m cache (k :: rest) =
        evictLoop m (removeKey k cache) rest := by
        simp [evictLoop, hlen]
      have hperm₂ : ((removeKey k cache).map Prod.fst).Perm (rest ++ extra) := by
        rw [map_fst_removeKey]
        have h₂ := hperm.erase k
        simpa [List.erase_cons_head] using h₂
      obtain ⟨p, s, d⟩ := ih (removeKey k cache) hperm₂
      rw [hstep]
      exact ⟨p, s.cons k, d⟩
    · have hstep : evictLoop m cache (k :: rest) = (cache, k :: rest) := by
        simp [evictLoop, hlen]
      rw [hstep]
      exact ⟨hperm, List.Sublist.refl _, Or.inl (Nat.lt_of_not_le hlen)⟩

theorem evictLoop_no_evict (m : ℕ) (cache : List (Key × CacheEntry))
    (order : List Key) (h : cache.length < m ∨ order = []) :
    evictLoop m cache order = (cache, order) := by
  cases order with
  | nil => rfl
  | cons k rest =>
    rcases h with h | h
    · simp [evictLoop, Nat.not_le.mpr h]
    · exact absurd h (List.cons_ne_nil k rest)

theorem evictLoop_single (m : ℕ) (k : Key) (rest : List Key)
    (cache : List (Key × CacheEntry)) (hlen : m ≤ cache.length)
    (hdrop : (removeKey k cache).length < m) :
    evictLoop m cache (k :: rest) = (removeKey k cache, rest) := by
  have hstep : evictLoop m cache (k :: rest) =
      evictLoop m (removeKey k cache) rest := by
    simp [evictLoop, hlen]
  rw [hstep]
  exact evictLoop_no_evict m _ rest (Or.inl hdrop)

/-! ### Shape lemmas for the `MemoryCache` operations -/

theorem MemoryCache.get_absent (c : MemoryCache) (now : ℚ) (key : Key)
    (hl : lookupKey key c.cache = Option.none) :
    c.get now key = (PyVal.none, c) := by
  unfold MemoryCache.get
  rw [hl]

theorem MemoryCache.get_hit (c : MemoryCache) (now : ℚ) (key : Key)
    (e : CacheEntry) (hl : lookupKey key c.cache = some e)
    (hx : e.is_expired now = false) :
    c.get now key =
      (e.value,
        { c with
            cache := setKey key { e with hits := e.hits + 1 } c.cache,
            access_order := condErase key c.access_order ++ [key] }) := by
  unfold MemoryCache.get
  rw [hl]
  simp [hx]

theorem MemoryCache.get_expired (c : MemoryCache) (now : ℚ) (key : Key)
    (e : CacheEntry) (hl : lookupKey key c.cache = some e)
    (hx : e.is_expired now = true) :
    c.get now key =
      (PyVal.none,
        { c with
            cache := removeKey key c.cache,
            access_order := condErase key c.access_order }) := by
  unfold MemoryCache.get
  rw [hl]
  simp [hx]

theorem MemoryCache.set_eq (c : MemoryCache) (now : ℚ) (key : Key)
    (v : PyVal) (ttl : Option ℚ) :
    c.set now key v ttl =
      { c with
          cache := setKey key
            (CacheEntry.mk v now (ttlOrDefault ttl c.default_ttl) 0)
            (evictLoop c.max_size c.cache
              (if (lookupKey key c.cache).isSome then condErase key c.access_order
               else c.access_order)).1,
          access_order := (evictLoop c.max_size c.cache
              (if (lookupKey key c.cache).isSome then condErase key c.access_order
               else c.access_order)).2 ++ [key] } := by
  rfl

theorem MemoryCache.set_eq_absent (c : MemoryCache) (now : ℚ) (key : Key)
    (v : PyVal) (ttl : Option ℚ) (hl : lookupKey key c.cache = Option.none) :
    c.set now key v ttl =
      { c with
          cache := setKey key
            (CacheEntry.mk v now (ttlOrDefault ttl c.default_ttl) 0)
            (evictLoop c.max_size c.cache c.access_order).1,
          access_order := (evictLoop c.max_size c.cache c.access_order).2 ++ [key] } := by
  rw [MemoryCache.set_eq, hl]
  simp

theorem MemoryCache.set_eq_present (c : MemoryCache) (now : ℚ) (key : Key)
    (v : PyVal) (ttl : Option ℚ) (e : CacheEntry)
    (hl : lookupKey key c.cache = some e) :
    c.set now key v ttl =
      { c with
          cache := setKey key
            (CacheEntry.mk v now (ttlOrDefault ttl c.default_ttl) 0)
            (evictLoop c.max_size c.cache (condErase key c.access_order)).1,
          access_order :=
            (evictLoop c.max_size c.cache (condErase key c.access_order)).2 ++ [key] } := by
  rw [MemoryCache.set_eq, hl]
  simp

/-! ### Well-formedness preservation -/

theorem perm_erase_append (key : Key) (l : List Key) (h : key ∈ l) :
    l.Perm (l.erase key ++ [key]) :=
  (List.perm_cons_erase h).trans (List.perm_append_singleton key _).symm

theorem MemoryCache.keys_nodup (c : MemoryCache) (h : c.WF) :
    (c.cache.map Prod.fst).Nodup :=
  h.2.symm.nodup h.1

theorem MemoryCache.set_WF (c : MemoryCache) (now : ℚ) (key : Key) (v : PyVal)
    (ttl : Option ℚ) (h : c.WF) (hm : 1 ≤ c.max_size) :
    (c.set now key v ttl).WF ∧
      (c.set now key v ttl).cache.length ≤ c.max_size := by
  cases hl : lookupKey key c.cache with
  | none =>
    rw [MemoryCache.set_eq_absent c now key v ttl hl]
    have hknk : key ∉ c.cache.map Prod.fst := (lookupKey_eq_none key c.cache).mp hl
    have hkno : key ∉ c.access_order := fun hmem => hknk (h.2.mem_iff.mpr hmem)
    have hperm : (c.cache.map Prod.fst).Perm (c.access_order ++ []) := by
      simpa using h.2
    obtain ⟨p, s, d⟩ := evictLoop_spec c.max_size [] c.access_order c.cache hperm
    simp only [List.append_nil] at p
    have hknr : key ∉ ((evictLoop c.max_size c.cache c.access_order).1.map Prod.fst) :=
      fun hmem => hkno (s.subset (p.mem_iff.mp hmem))
    have hknr₂ : key ∉ (evictLoop c.max_size c.cache c.access_order).2 :=
      fun hmem => hkno (s.subset hmem)
    refine ⟨⟨?nodup, ?perm⟩, ?len⟩
    case nodup =>
      refine List.Nodup.append (h.1.sublist s) (List.nodup_singleton key) ?disj
      intro x hx hx₂
      simp only [List.mem_singleton] at hx₂
      subst hx₂
      exact hknr₂ hx
    case perm =>
      simp only [map_fst_setKey_notMem key _ _ hknr]
      exact p.append_right [key]
    case len =>
      simp only [length_setKey_of_notMem key _ _ hknr]
      rcases d with d | d
      · omega
      · rw [d] at p
        have hnil : (evictLoop c.max_size c.cache c.access_order).1.map Prod.fst = [] :=
          p.eq_nil
        have hlen₀ : (evictLoop c.max_size c.cache c.access_order).1.length = 0 := by
          have := congrArg List.length hnil
          simpa using this
        omega
  | some e =>
    have hco : condErase key c.access_order = c.access_order.erase key :=
      condErase_eq_erase key _
    rw [MemoryCache.set_eq_present c now key v ttl e hl, hco]
    have hkk : key ∈ c.cache.map Prod.fst :=
      (lookupKey_isSome key c.cache).mp (by simp [hl])
    have hko : key ∈ c.access_order := h.2.mem_iff.mp hkk
    have hperm : (c.cache.map Prod.fst).Perm (c.access_order.erase key ++ [key]) :=
      h.2.trans (perm_erase_append key _ hko)
    obtain ⟨p, s, d⟩ :=
      evictLoop_spec c.max_size [key] (c.access_order.erase key) c.cache hperm
    have hkr : key ∈
        ((evictLoop c.max_size c.cache (c.access_order.erase key)).1.map Prod.fst) := by
      apply p.mem_iff.mpr
      simp
    have hknr₂ : key ∉ (evictLoop c.max_size c.cache (c.access_order.erase key)).2 := by
      intro hmem
      exact (h.1.mem_erase_iff.mp (s.subset hmem)).1 rfl
    refine ⟨⟨?_, ?_⟩, ?_⟩
    · refine List.Nodup.append ((h.1.erase key).sublist s)
        (List.nodup_singleton key) ?_
      intro x hx hx₂
      simp only [List.mem_singleton] at hx₂
      subst hx₂
      exact hknr₂ hx
    · simp only [map_fst_setKey_mem key _ _ hkr]
      exact p
    · simp only [length_setKey_of_mem key _ _ hkr]
      rcases d with d | d
      · omega
      · rw [d] at p
        have hlen₁ :
            (evictLoop c.max_size c.cache (c.access_order.erase key)).1.length = 1 := by
          have := p.length_eq
          simpa using this
        omega

theorem MemoryCache.get_WF (c : MemoryCache) (now : ℚ) (key : Key)
    (h : c.WF) :
    (c.get now key).2.WF ∧ (c.get now key).2.cache.length ≤ c.cache.length := by
  cases hl : lookupKey key c.cache with
  | none =>
    rw [MemoryCache.get_absent c now key hl]
    exact ⟨h, le_refl _⟩
  | some e =>
    have hkk : key ∈ c.cache.map Prod.fst :=
      (lookupKey_isSome key c.cache).mp (by simp [hl])
    have hko : key ∈ c.access_order := h.2.mem_iff.mp hkk
    have hco : condErase key c.access_order = c.access_order.erase key :=
      condErase_eq_erase key _
    cases hx : e.is_expired now with
    | false =>
      rw [MemoryCache.get_hit c now key e hl hx]
      refine ⟨⟨?_, ?_⟩, ?_⟩
      · rw [hco]
        refine List.Nodup.append (h.1.erase key) (List.nodup_singleton key) ?_
        intro x hx₁ hx₂
        simp only [List.mem_singleton] at hx₂
        subst hx₂
        exact (h.1.mem_erase_iff.mp hx₁).1 rfl
      · simp only [map_fst_setKey_mem key _ _ hkk, hco]
        exact h.2.trans (perm_erase_append key _ hko)
      · simp [length_setKey_of_mem key _ _ hkk]
    | true =>
      rw [MemoryCache.get_expired c now key e hl hx]
      refine ⟨⟨?_, ?_⟩, ?_⟩
      · rw [hco]
        exact h.1.erase key
      · simp only [map_fst_removeKey, hco]
        exact h.2.erase key
      · simp [length_removeKey_le]

theorem MemoryCache.delete_WF (c : MemoryCache) (key : Key) (h : c.WF) :
    (c.delete key).2.WF ∧ (c.delete key).2.cache.length ≤ c.cache.length := by
  unfold MemoryCache.delete
  by_cases hl : (lookupKey key c.cache).isSome = true
  · have hco : condErase key c.access_order = c.access_order.erase key :=
      condErase_eq_erase key _
    simp only [hl, if_true]
    refine ⟨⟨?_, ?_⟩, ?_⟩
    · rw [hco]
      exact h.1.erase key
    · simp only [map_fst_removeKey, hco]
      exact h.2.erase key
    · simp [length_removeKey_le]
  · simp only [hl, if_false]
    exact ⟨h, le_refl _⟩

theorem MemoryCache.clear_WF (c : MemoryCache) : (c.clear).WF := by
  constructor
  · exact List.nodup_nil
  · simp [MemoryCache.clear]

theorem foldl_removeKey_condErase (ks : List Key) :
    ∀ (cache : List (Key × CacheEntry)) (order : List Key),
      (cache.map Prod.fst).Perm order →
      ((ks.foldl (fun acc k => removeKey k acc) cache).map Prod.fst).Perm
          (ks.foldl (fun acc k => condErase k acc) order) ∧
        (ks.foldl (fun acc k => condErase k acc) order).Sublist order := by
  induction ks with
  | nil =>
    intro cache order hperm
    exact ⟨hperm, List.Sublist.refl _⟩
  | cons k ks ih =>
    intro cache order hperm
    simp only [List.foldl_cons]
    have hperm₂ : ((removeKey k cache).map Prod.fst).Perm (condErase k order) := by
      rw [map_fst_removeKey, condErase_eq_erase]
      exact hperm.erase k
    obtain ⟨p, s⟩ := ih (removeKey k cache) (condErase k order) hperm₂
    refine ⟨p, s.trans ?_⟩
    rw [condErase_eq_erase]
    exact List.erase_sublist k order

theorem MemoryCache.cleanup_WF (c : MemoryCache) (now : ℚ) (h : c.WF) :
    (c.cleanup_expired now).2.WF ∧
      (c.cleanup_expired now).2.cache.length ≤ c.cache.length := by
  simp only [MemoryCache.cleanup_expired]
  obtain ⟨p, s⟩ := foldl_removeKey_condErase
    ((c.cache.filter (fun p => p.2.is_expired now)).map Prod.fst)
    c.cache c.access_order h.2
  refine ⟨⟨h.1.sublist s, p⟩, ?_⟩
  have h₁ := p.length_eq
  simp only [List.length_map] at h₁
  have h₂ := s.length_le
  have h₃ := h.2.length_eq
  simp only [List.length_map] at h₃
  omega

/-- The state invariant of the spec: well-formed structures and the size
bound. -/
def MemoryCache.Inv (c : MemoryCache) : Prop :=
  c.WF ∧ c.cache.length ≤ c.max_size

theorem MemOp.apply_max_size (c : MemoryCache) (op : MemOp) :
    (MemOp.apply c op).max_size = c.max_size := by
  cases op with
  | get now k =>
    simp only [MemOp.apply]
    cases hl : lookupKey k c.cache with
    | none => rw [MemoryCache.get_absent c now k hl]
    | some e =>
      cases hx : e.is_expired now with
      | false => rw [MemoryCache.get_hit c now k e hl hx]
      | true => rw [MemoryCache.get_expired c now k e hl hx]
  | set now k v ttl => rw [MemOp.apply, MemoryCache.set_eq]
  | delete k =>
    simp only [MemOp.apply]
    unfold MemoryCache.delete
    by_cases hl : (lookupKey k c.cache).isSome = true <;> simp [hl]
  | clear => rfl
  | cleanup now => rfl

theorem MemOp.apply_Inv (c : MemoryCache) (op : MemOp) (h : c.Inv)
    (hm : 1 ≤ c.max_size) : (MemOp.apply c op).Inv := by
  cases op with
  | get now k =>
    obtain ⟨hwf, hlen⟩ := MemoryCache.get_WF c now k h.1
    exact ⟨hwf, by
      have := MemOp.apply_max_size c (MemOp.get now k)
      simp only [MemOp.apply] at this ⊢
      rw [this]
      exact le_trans hlen h.2⟩
  | set now k v ttl =>
    obtain ⟨hwf, hlen⟩ := MemoryCache.set_WF c now k v ttl h.1 hm
    exact ⟨hwf, by
      have := MemOp.apply_max_size c (MemOp.set now k v ttl)
      simp only [MemOp.apply] at this ⊢
      rw [this]
      exact hlen⟩
  | delete k =>
    obtain ⟨hwf, hlen⟩ := MemoryCache.delete_WF c k h.1
    exact ⟨hwf, by
      have := MemOp.apply_max_size c (MemOp.delete k)
      simp only [MemOp.apply] at this ⊢
      rw [this]
      exact le_trans hlen h.2⟩
  | clear =>
    exact ⟨MemoryCache.clear_WF c, by simp [MemOp.apply, MemoryCache.clear]⟩
  | cleanup now =>
    obtain ⟨hwf, hlen⟩ := MemoryCache.cleanup_WF c now h.1
    exact ⟨hwf, by
      have := MemOp.apply_max_size c (MemOp.cleanup now)
      simp only [MemOp.apply] at this ⊢
      rw [this]
      exact le_trans hlen h.2⟩

theorem runMemOps_Inv (ops : List MemOp) :
    ∀ (c : MemoryCache), c.Inv → 1 ≤ c.max_size → (runMemOps c ops).Inv := by
  induction ops with
  | nil => intro c h _; exact h
  | cons op ops ih =>
    intro c h hm
    simp only [runMemOps, List.foldl_cons]
    exact ih (MemOp.apply c op) (MemOp.apply_Inv c op h hm)
      (by rw [MemOp.apply_max_size]; exact hm)

/-! ### RateLimiter lemmas -/

theorem RateLimiter.wait_time_frame (s : RateLimiter) (req : ℚ) :
    (s.wait_time req).2 = s := by
  unfold RateLimiter.wait_time
  by_cases h : req ≤ s.tokens <;> simp [h]

theorem RateLimiter.acquire_frame (s : RateLimiter) (now req : ℚ) :
    (s.acquire now req).2.requests_per_window = s.requests_per_window ∧
      (s.acquire now req).2.window_seconds = s.window_seconds := by
  simp only [RateLimiter.acquire]
  by_cases h : req ≤
      min s.requests_per_window
        (s.tokens + (now - s.last_refill) * (s.requests_per_window / s.window_seconds)) <;>
    simp [h]

theorem RateLimiter.acquire_InBounds (s : RateLimiter) (now req : ℚ)
    (hcap : 0 < s.requests_per_window) (hwin : 0 < s.window_seconds)
    (h : s.InBounds) (hnow : s.last_refill ≤ now) (hreq : 0 ≤ req) :
    (s.acquire now req).2.InBounds := by
  have hadd : 0 ≤ (now - s.last_refill) * (s.requests_per_window / s.window_seconds) :=
    mul_nonneg (sub_nonneg.mpr hnow) (div_nonneg hcap.le hwin.le)
  have h₀ : 0 ≤ min s.requests_per_window
      (s.tokens + (now - s.last_refill) * (s.requests_per_window / s.window_seconds)) :=
    le_min hcap.le (add_nonneg h.1 hadd)
  have h₁ : min s.requests_per_window
      (s.tokens + (now - s.last_refill) * (s.requests_per_window / s.window_seconds)) ≤
      s.requests_per_window := min_le_left _ _
  simp only [RateLimiter.acquire]
  by_cases hc : req ≤
      min s.requests_per_window
        (s.tokens + (now - s.last_refill) * (s.requests_per_window / s.window_seconds))
  · simp only [hc, if_true]
    exact ⟨sub_nonneg.mpr hc, le_trans (sub_le_self _ hreq) h₁⟩
  · simp only [hc, if_false]
    exact ⟨h₀, h₁⟩

theorem RateLimiter.reset_InBounds (s : RateLimiter) (now : ℚ)
    (hcap : 0 < s.requests_per_window) : (s.reset now).InBounds :=
  ⟨hcap.le, le_refl _⟩

theorem RLOp.apply_frame (s : RateLimiter) (op : RLOp) :
    (RLOp.apply s op).requests_per_window = s.requests_per_window ∧
      (RLOp.apply s op).window_seconds = s.window_seconds := by
  cases op with
  | acquire now req => exact RateLimiter.acquire_frame s now req
  | waitTime req => rw [RLOp.apply, RateLimiter.wait_time_frame]; exact ⟨rfl, rfl⟩
  | reset now => exact ⟨rfl, rfl⟩

theorem RLOp.apply_InBounds (s : RateLimiter) (op : RLOp)
    (hcap : 0 < s.requests_per_window) (hwin : 0 < s.window_seconds)
    (h : s.InBounds) (hv : match op with
      | RLOp.acquire now req => s.last_refill ≤ now ∧ 0 ≤ req
      | RLOp.waitTime req => 0 ≤ req
      | RLOp.reset now => s.last_refill ≤ now) :
    (RLOp.apply s op).InBounds := by
  cases op with
  | acquire now req => exact RateLimiter.acquire_InBounds s now req hcap hwin h hv.1 hv.2
  | waitTime req => rw [RLOp.apply, RateLimiter.wait_time_frame]; exact h
  | reset now => exact RateLimiter.reset_InBounds s now hcap

theorem runRLOps_InBounds (ops : List RLOp) :
    ∀ (s : RateLimiter), 0 < s.requests_per_window → 0 < s.window_seconds →
      s.InBounds → RLOpsValid s ops → (runRLOps s ops).InBounds := by
  induction ops with
  | nil => intro s _ _ h _; exact h
  | cons op ops ih =>
    intro s hcap hwin h hv
    simp only [runRLOps, List.foldl_cons]
    obtain ⟨hv₁, hv₂⟩ := hv
    obtain ⟨hf₁, hf₂⟩ := RLOp.apply_frame s op
    exact ih (RLOp.apply s op) (hf₁ ▸ hcap) (hf₂ ▸ hwin)
      (RLOp.apply_InBounds s op hcap hwin h hv₁) hv₂

/-! ### FileCache shape lemmas -/

theorem FileCache.get_missing (fc : FileCache) (now : ℚ) (key : Key)
    (hl : lookupKey key fc.files = Option.none) :
    fc.get now key = (PyVal.none, fc) := by
  unfold FileCache.get
  rw [hl]

theorem FileCache.get_corrupt (fc : FileCache) (now : ℚ) (key : Key)
    (hl : lookupKey key fc.files = some FileContent.corrupt) :
    fc.get now key = (PyVal.none, { fc with files := removeKey key fc.files }) := by
  unfold FileCache.get
  rw [hl]
  rfl

theorem FileCache.get_full_hit (fc : FileCache) (now : ℚ) (key : Key)
    (e : CacheEntry) (hl : lookupKey key fc.files = some (FileContent.full e))
    (hx : e.is_expired now = false) :
    fc.get now key =
      (e.value,
        { fc with
            files := setKey key (FileContent.full { e with hits := e.hits + 1 }) fc.files }) := by
  unfold FileCache.get
  rw [hl]
  simp [readEntry, hx]

/-! ### Claims -/

/-- C3: whenever `MemoryCache.set` inserts a new key while
`size == max_size`, the evicted key is the least-recently-used one — the
front of the access order maintained by `get`/`set` (ties broken by
insertion order) — no other entry is touched, and the new key is
inserted; moreover on `MemoryCache(max_size=2)` the sequence
`set(a,1); set(b,2); get(a); set(c,3)` leaves `get(b)==miss`,
`get(a)==1`, `get(c)==3`. -/
theorem C3_lru_eviction :
    (∀ (c : MemoryCache) (now : ℚ) (k : Key) (v : PyVal) (ttl : Option ℚ),
      c.WF → lookupKey k c.cache = Option.none →
      c.cache.length = c.max_size → 1 ≤ c.max_size →
      ∃ lru rest, c.access_order = lru :: rest ∧
        lookupKey lru (c.set now k v ttl).cache = Option.none ∧
        lookupKey k (c.set now k v ttl).cache =
          some (CacheEntry.mk v now (ttlOrDefault ttl c.default_ttl) 0) ∧
        (∀ k₂, k₂ ≠ lru → k₂ ≠ k →
          lookupKey k₂ (c.set now k v ttl).cache = lookupKey k₂ c.cache) ∧
        (c.set now k v ttl).access_order = rest ++ [k]) ∧
    (let c₄ := ((((mkMemoryCache 3600 2).set 0 "a" (PyVal.int 1)
        Option.none).set 0 "b" (PyVal.int 2) Option.none).get 0 "a").2.set 0 "c"
        (PyVal.int 3) Option.none ;
      (c₄.get 0 "b").1 = PyVal.none ∧
        (c₄.get 0 "a").1 = PyVal.int 1 ∧
        (c₄.get 0 "c").1 = PyVal.int 3) := by
  constructor
  · intro c now k v ttl h hl hlen hm
    have hkeylen : (c.cache.map Prod.fst).length = c.access_order.length :=
      h.2.length_eq
    simp only [List.length_map] at hkeylen
    cases horder : c.access_order with
    | nil =>
      rw [horder] at hkeylen
      simp only [List.length_nil] at hkeylen
      omega
    | cons lru rest =>
      have hlru_order : lru ∈ c.access_order := by rw [horder]; simp
      have hlru_keys : lru ∈ c.cache.map Prod.fst := h.2.mem_iff.mpr hlru_order
      have hknk : k ∉ c.cache.map Prod.fst := (lookupKey_eq_none k c.cache).mp hl
      have hlk : lru ≠ k := fun hx => hknk (hx ▸ hlru_keys)
      have hdrop : (removeKey lru c.cache).length < c.max_size := by
        have := length_removeKey_of_mem lru c.cache hlru_keys
        omega
      have hloop : evictLoop c.max_size c.cache c.access_order =
          (removeKey lru c.cache, rest) := by
        rw [horder]
        exact evictLoop_single c.max_size lru rest c.cache (le_of_eq hlen.symm) hdrop
      rw [MemoryCache.set_eq_absent c now k v ttl hl]
      refine ⟨lru, rest, rfl, ?_, ?_, ?_, ?_⟩
      · simp only [hloop]
        rw [lookupKey_setKey_ne k lru _ _ hlk]
        exact lookupKey_removeKey_self lru c.cache (c.keys_nodup h)
      · simp only [hloop]
        exact lookupKey_setKey_self k _ _
      · intro k₂ h₂l h₂k
        simp only [hloop]
        rw [lookupKey_setKey_ne k k₂ _ _ h₂k]
        exact lookupKey_removeKey_ne lru k₂ c.cache h₂l
      · simp only [hloop]
  · simp [mkMemoryCache, MemoryCache.set, MemoryCache.get, evictLoop,
      lookupKey, setKey, removeKey, condErase, eraseFirst, ttlOrDefault,
      CacheEntry.is_expired,
      show ¬ ((3600:ℚ) < 0 - 0) from by norm_num,
      show ¬ ((3600:ℚ) < 0) from by norm_num]

/-- Witness for C3: a concrete full cache `{a: 1}` with `max_size = 1`;
inserting `b` evicts `a` and installs `b`. -/
theorem C3_lru_eviction_witness :
    (∃ lru rest,
      (⟨3600, 1, [("a", CacheEntry.mk (PyVal.int 1) 0 3600 0)], ["a"]⟩ :
          MemoryCache).access_order = lru :: rest ∧
        lookupKey lru ((⟨3600, 1, [("a", CacheEntry.mk (PyVal.int 1) 0 3600 0)], ["a"]⟩ :
          MemoryCache).set 5 "b" (PyVal.int 2) Option.none).cache = Option.none ∧
        lookupKey "b" ((⟨3600, 1, [("a", CacheEntry.mk (PyVal.int 1) 0 3600 0)], ["a"]⟩ :
          MemoryCache).set 5 "b" (PyVal.int 2) Option.none).cache =
          some (CacheEntry.mk (PyVal.int 2) 5
            (ttlOrDefault Option.none
              (⟨3600, 1, [("a", CacheEntry.mk (PyVal.int 1) 0 3600 0)], ["a"]⟩ :
                MemoryCache).default_ttl) 0) ∧
        (∀ k₂, k₂ ≠ lru → k₂ ≠ "b" →
          lookupKey k₂ ((⟨3600, 1, [("a", CacheEntry.mk (PyVal.int 1) 0 3600 0)], ["a"]⟩ :
            MemoryCache).set 5 "b" (PyVal.int 2) Option.none).cache =
            lookupKey k₂ (⟨3600, 1, [("a", CacheEntry.mk (PyVal.int 1) 0 3600 0)], ["a"]⟩ :
              MemoryCache).cache) ∧
        ((⟨3600, 1, [("a", CacheEntry.mk (PyVal.int 1) 0 3600 0)], ["a"]⟩ :
          MemoryCache).set 5 "b" (PyVal.int 2) Option.none).access_order =
          rest ++ ["b"]) :=
  C3_lru_eviction.1
    ⟨3600, 1, [("a", CacheEntry.mk (PyVal.int 1) 0 3600 0)], ["a"]⟩
    5 "b" (PyVal.int 2) Option.none
    ⟨by simp, by simp⟩
    (by simp [lookupKey])
    rfl
    (le_refl 1)

theorem runMemOps_max_size (ops : List MemOp) :
    ∀ (c : MemoryCache), (runMemOps c ops).max_size = c.max_size := by
  induction ops with
  | nil => intro c; rfl
  | cons op ops ih =>
    intro c
    simp only [runMemOps, List.foldl_cons]
    have h₁ := ih (MemOp.apply c op)
    simp only [runMemOps] at h₁
    rw [h₁, MemOp.apply_max_size]

/-- C7 (amended): provided `max_size ≥ 1`, after any sequence of
`MemoryCache` operations (`get`, `set`, `delete`, `clear`,
`cleanup_expired`) starting from a fresh cache, `size(mapping) ≤ max_size`
and the access-order structure contains exactly the mapping's key set —
duplicate-free and a permutation of the mapping's keys (no orphans).
The claim as stated fails for the constructible `max_size = 0` cache. -/
theorem C7_inv_after_ops (d : ℚ) (m : ℕ) (ops : List MemOp) (hm : 1 ≤ m) :
    (runMemOps (mkMemoryCache d m) ops).WF ∧
      (runMemOps (mkMemoryCache d m) ops).cache.length ≤ m := by
  have h₀ : (mkMemoryCache d m).Inv := by
    refine ⟨⟨List.nodup_nil, List.Perm.refl _⟩, ?_⟩
    simp [mkMemoryCache]
  have h := runMemOps_Inv ops (mkMemoryCache d m) h₀ hm
  have hms := runMemOps_max_size ops (mkMemoryCache d m)
  refine ⟨h.1, ?_⟩
  have h₂ := h.2
  rw [hms] at h₂
  exact h₂

/-- Witness for C7: one `set` on a fresh cache with `max_size = 1`. -/
theorem C7_inv_after_ops_witness :
    (runMemOps (mkMemoryCache 3600 1)
        [MemOp.set 0 "a" (PyVal.int 1) Option.none]).WF ∧
      (runMemOps (mkMemoryCache 3600 1)
        [MemOp.set 0 "a" (PyVal.int 1) Option.none]).cache.length ≤ 1 :=
  C7_inv_after_ops 3600 1 [MemOp.set 0 "a" (PyVal.int 1) Option.none] (le_refl 1)

/-- Counterexample for C7: `MemoryCache(max_size=0)` is constructible, and
a single `set` leaves `size(mapping) = 1 > 0 = max_size`. -/
theorem C7_counterexample :
    (runMemOps (mkMemoryCache 3600 0)
        [MemOp.set 0 "a" (PyVal.int 1) Option.none]).cache.length = 1 ∧
      ¬ ((runMemOps (mkMemoryCache 3600 0)
          [MemOp.set 0 "a" (PyVal.int 1) Option.none]).cache.length ≤
        (mkMemoryCache 3600 0).max_size) := by
  constructor
  · simp [runMemOps, MemOp.apply, mkMemoryCache, MemoryCache.set, evictLoop,
      lookupKey, setKey, condErase, eraseFirst, ttlOrDefault]
  · simp [runMemOps, MemOp.apply, mkMemoryCache, MemoryCache.set, evictLoop,
      lookupKey, setKey, condErase, eraseFirst, ttlOrDefault]

/-- C9 (amended): if `MemoryCache.set(k, v)` is called while `k` is
already present and `size == max_size`, with `max_size ≥ 2`, the eviction
loop still runs: the least-recently-used key other than `k` (the front of
the access order after `k` is dropped from it) is evicted, and the cache
size after the call is `max_size - 1` even though no new key was
inserted.  For `max_size = 1` there is no other key: nothing is evicted
and the size stays `max_size`. -/
theorem C9_replace_at_capacity (c : MemoryCache) (now : ℚ) (k : Key)
    (v : PyVal) (ttl : Option ℚ) (e : CacheEntry) (h : c.WF)
    (hl : lookupKey k c.cache = some e)
    (hlen : c.cache.length = c.max_size) (hm : 2 ≤ c.max_size) :
    ∃ j rest, c.access_order.erase k = j :: rest ∧ j ≠ k ∧
      lookupKey j (c.set now k v ttl).cache = Option.none ∧
      (c.set now k v ttl).cache.length = c.max_size - 1 := by
  have hkk : k ∈ c.cache.map Prod.fst :=
    (lookupKey_isSome k c.cache).mp (by simp [hl])
  have hko : k ∈ c.access_order := h.2.mem_iff.mp hkk
  have hkeylen : (c.cache.map Prod.fst).length = c.access_order.length :=
    h.2.length_eq
  simp only [List.length_map] at hkeylen
  have herlen : (c.access_order.erase k).length = c.max_size - 1 := by
    rw [List.length_erase_of_mem hko]
    omega
  cases her : c.access_order.erase k with
  | nil =>
    rw [her] at herlen
    simp only [List.length_nil] at herlen
    omega
  | cons j rest =>
    have hj_er : j ∈ c.access_order.erase k := by rw [her]; simp
    have hjk : j ≠ k := (h.1.mem_erase_iff.mp hj_er).1
    have hj_order : j ∈ c.access_order := (h.1.mem_erase_iff.mp hj_er).2
    have hj_keys : j ∈ c.cache.map Prod.fst := h.2.mem_iff.mpr hj_order
    have hdrop : (removeKey j c.cache).length < c.max_size := by
      have := length_removeKey_of_mem j c.cache hj_keys
      omega
    have hco : condErase k c.access_order = c.access_order.erase k :=
      condErase_eq_erase k _
    have hloop : evictLoop c.max_size c.cache (condErase k c.access_order) =
        (removeKey j c.cache, rest) := by
      rw [hco, her]
      exact evictLoop_single c.max_size j rest c.cache (le_of_eq hlen.symm) hdrop
    rw [MemoryCache.set_eq_present c now k v ttl e hl]
    refine ⟨j, rest, rfl, hjk, ?_, ?_⟩
    · simp only [hloop]
      rw [lookupKey_setKey_ne k j _ _ hjk]
      exact lookupKey_removeKey_self j c.cache (c.keys_nodup h)
    · simp only [hloop]
      have hkr : k ∈ (removeKey j c.cache).map Prod.fst := by
        apply (lookupKey_isSome k _).mp
        rw [lookupKey_removeKey_ne j k c.cache (Ne.symm hjk), hl]
        rfl
      rw [length_setKey_of_mem k _ _ hkr]
      have := length_removeKey_of_mem j c.cache hj_keys
      omega

/-- Witness for C9: a full two-entry cache `{a, b}` (with `a` least
recently used); `set(b, …)` evicts `a` and leaves one entry. -/
theorem C9_replace_at_capacity_witness :
    ∃ j rest,
      (⟨3600, 2, [("a", CacheEntry.mk (PyVal.int 1) 0 3600 0),
          ("b", CacheEntry.mk (PyVal.int 2) 0 3600 0)], ["a", "b"]⟩ :
        MemoryCache).access_order.erase "b" = j :: rest ∧ j ≠ "b" ∧
        lookupKey j ((⟨3600, 2, [("a", CacheEntry.mk (PyVal.int 1) 0 3600 0),
            ("b", CacheEntry.mk (PyVal.int 2) 0 3600 0)], ["a", "b"]⟩ :
          MemoryCache).set 5 "b" (PyVal.int 7) Option.none).cache = Option.none ∧
        ((⟨3600, 2, [("a", CacheEntry.mk (PyVal.int 1) 0 3600 0),
            ("b", CacheEntry.mk (PyVal.int 2) 0 3600 0)], ["a", "b"]⟩ :
          MemoryCache).set 5 "b" (PyVal.int 7) Option.none).cache.length =
          (⟨3600, 2, [("a", CacheEntry.mk (PyVal.int 1) 0 3600 0),
              ("b", CacheEntry.mk (PyVal.int 2) 0 3600 0)], ["a", "b"]⟩ :
            MemoryCache).max_size - 1 :=
  C9_replace_at_capacity
    ⟨3600, 2, [("a", CacheEntry.mk (PyVal.int 1) 0 3600 0),
      ("b", CacheEntry.mk (PyVal.int 2) 0 3600 0)], ["a", "b"]⟩
    5 "b" (PyVal.int 7) Option.none (CacheEntry.mk (PyVal.int 2) 0 3600 0)
    ⟨by simp, by simp⟩
    (by simp [lookupKey])
    rfl
    (le_refl 2)

/-- Counterexample for C9: with `max_size = 1` and the key already
present, nothing is evicted and the size after the call is
`max_size`, not `max_size - 1`. -/
theorem C9_counterexample :
    ((⟨3600, 1, [("a", CacheEntry.mk (PyVal.int 1) 0 3600 0)], ["a"]⟩ :
        MemoryCache).set 5 "a" (PyVal.int 2) Option.none).cache.length = 1 ∧
      (⟨3600, 1, [("a", CacheEntry.mk (PyVal.int 1) 0 3600 0)], ["a"]⟩ :
        MemoryCache).cache.length =
        (⟨3600, 1, [("a", CacheEntry.mk (PyVal.int 1) 0 3600 0)], ["a"]⟩ :
          MemoryCache).max_size ∧
      ¬ (((⟨3600, 1, [("a", CacheEntry.mk (PyVal.int 1) 0 3600 0)], ["a"]⟩ :
          MemoryCache).set 5 "a" (PyVal.int 2) Option.none).cache.length =
        (⟨3600, 1, [("a", CacheEntry.mk (PyVal.int 1) 0 3600 0)], ["a"]⟩ :
          MemoryCache).max_size - 1) := by
  refine ⟨?_, rfl, ?_⟩
  · simp [MemoryCache.set, evictLoop, lookupKey, setKey, removeKey,
      condErase, eraseFirst, ttlOrDefault]
  · simp [MemoryCache.set, evictLoop, lookupKey, setKey, removeKey,
      condErase, eraseFirst, ttlOrDefault]


theorem cachedCall_miss_invokes (c : MemoryCache) (now : ℚ)
    (f : PyVal → PyVal) (x : PyVal) (key : Key) (ttl : Option ℚ)
    (h : lookupKey key c.cache = Option.none) :
    cachedCall c now f x key ttl = (f x, c.set now key (f x) ttl, 1) := by
  simp only [cachedCall, MemoryCache.get_absent c now key h]
  simp

/-- C1 (amended): for a pure wrapped function `f` whose result is not
`None`: starting from a state where the key is absent, calling the
cached-wrapped version twice with the same key within the TTL invokes the
underlying `f` exactly once — the second call is a hit that returns the
cached value without invoking `f` — and a further call with a different
(absent) key invokes `f` again.  The non-`None` proviso is forced: the
wrapper tests `result is not None`, so a `None` result is re-invoked on
every call. -/
theorem C1_cached_single_invocation (c : MemoryCache) (now now₂ : ℚ)
    (f : PyVal → PyVal) (x : PyVal) (key : Key) (ttl : Option ℚ)
    (habsent : lookupKey key c.cache = Option.none)
    (hres : f x ≠ PyVal.none)
    (httl : now₂ - now ≤ ttlOrDefault ttl c.default_ttl) :
    (cachedCallTwice c now now₂ f x key ttl).1.2.2 +
        (cachedCallTwice c now now₂ f x key ttl).2.2.2 = 1 ∧
      (cachedCallTwice c now now₂ f x key ttl).2.1 = f x ∧
      (∀ key₂,
        lookupKey key₂ (cachedCallTwice c now now₂ f x key ttl).2.2.1.cache =
          Option.none →
        (cachedCall (cachedCallTwice c now now₂ f x key ttl).2.2.1 now₂ f x
          key₂ ttl).2.2 = 1) := by
  have hc₁ : cachedCall c now f x key ttl =
      (f x, c.set now key (f x) ttl, 1) :=
    cachedCall_miss_invokes c now f x key ttl habsent
  have hset : lookupKey key (c.set now key (f x) ttl).cache =
      some (CacheEntry.mk (f x) now (ttlOrDefault ttl c.default_ttl) 0) := by
    rw [MemoryCache.set_eq]
    exact lookupKey_setKey_self key _ _
  have hexp : (CacheEntry.mk (f x) now (ttlOrDefault ttl c.default_ttl) 0).is_expired
      now₂ = false := by
    simp only [CacheEntry.is_expired, decide_eq_false_iff_not]
    exact not_lt.mpr httl
  have hc₂ : cachedCall (c.set now key (f x) ttl) now₂ f x key ttl =
      (f x,
        { c.set now key (f x) ttl with
            cache := setKey key
              (CacheEntry.mk (f x) now (ttlOrDefault ttl c.default_ttl) 1)
              (c.set now key (f x) ttl).cache,
            access_order :=
              condErase key (c.set now key (f x) ttl).access_order ++ [key] },
        0) := by
    simp only [cachedCall,
      MemoryCache.get_hit (c.set now key (f x) ttl) now₂ key _ hset hexp]
    simp [hres]
  simp only [cachedCallTwice, hc₁]
  simp only [hc₂]
  refine ⟨trivial, trivial, ?_⟩
  intro key₂ hk₂
  rw [cachedCall_miss_invokes _ now₂ f x key₂ ttl hk₂]

/-- Witness for C1: `f` doubles an int; two wrapped calls at times 0 and
1 with default TTL 3600 invoke `f` once in total, the second call returns
the cached 10, and a further call with the fresh key `"j"` invokes `f`
again. -/
theorem C1_cached_single_invocation_witness :
    (cachedCallTwice (mkMemoryCache 3600 1000) 0 1
          (fun p => match p with
            | PyVal.int n => PyVal.int (2 * n)
            | _ => PyVal.none) (PyVal.int 5) "k" Option.none).1.2.2 +
        (cachedCallTwice (mkMemoryCache 3600 1000) 0 1
          (fun p => match p with
            | PyVal.int n => PyVal.int (2 * n)
            | _ => PyVal.none) (PyVal.int 5) "k" Option.none).2.2.2 = 1 ∧
      (cachedCallTwice (mkMemoryCache 3600 1000) 0 1
          (fun p => match p with
            | PyVal.int n => PyVal.int (2 * n)
            | _ => PyVal.none) (PyVal.int 5) "k" Option.none).2.1 =
        PyVal.int 10 ∧
      (cachedCall
          (cachedCallTwice (mkMemoryCache 3600 1000) 0 1
            (fun p => match p with
              | PyVal.int n => PyVal.int (2 * n)
              | _ => PyVal.none) (PyVal.int 5) "k" Option.none).2.2.1 1
          (fun p => match p with
            | PyVal.int n => PyVal.int (2 * n)
            | _ => PyVal.none) (PyVal.int 5) "j" Option.none).2.2 = 1 := by
  have h := C1_cached_single_invocation (mkMemoryCache 3600 1000) 0 1
    (fun p => match p with
      | PyVal.int n => PyVal.int (2 * n)
      | _ => PyVal.none) (PyVal.int 5) "k" Option.none
    rfl
    (by simp)
    (by norm_num [mkMemoryCache, ttlOrDefault])
  refine ⟨h.1, h.2.1, h.2.2 "j" ?_⟩
  simp [cachedCallTwice, cachedCall, mkMemoryCache, MemoryCache.get,
    MemoryCache.set, evictLoop, lookupKey, setKey, removeKey, condErase,
    eraseFirst, ttlOrDefault, CacheEntry.is_expired,
    show ¬ ((3600:ℚ) < 0 - 0) from by norm_num,
    show ¬ ((3600:ℚ) < 1 - 0) from by norm_num,
    show ¬ ((3600:ℚ) < 0) from by norm_num]

/-- Counterexample for C1: the wrapper tests `result is not None`, so a
pure function that returns `None` is never a hit — two calls with the
same key, at the same instant and far below any TTL, invoke it twice,
not once. -/
theorem C1_counterexample :
    (cachedCallTwice (mkMemoryCache 3600 1000) 0 0 (fun _ => PyVal.none)
          (PyVal.int 0) "k" Option.none).1.2.2 +
        (cachedCallTwice (mkMemoryCache 3600 1000) 0 0 (fun _ => PyVal.none)
          (PyVal.int 0) "k" Option.none).2.2.2 = 2 ∧
      ¬ ((cachedCallTwice (mkMemoryCache 3600 1000) 0 0 (fun _ => PyVal.none)
            (PyVal.int 0) "k" Option.none).1.2.2 +
          (cachedCallTwice (mkMemoryCache 3600 1000) 0 0 (fun _ => PyVal.none)
            (PyVal.int 0) "k" Option.none).2.2.2 = 1) := by
  constructor
  · simp [cachedCallTwice, cachedCall, mkMemoryCache, MemoryCache.get,
      MemoryCache.set, evictLoop, lookupKey, setKey, removeKey, condErase,
      eraseFirst, ttlOrDefault, CacheEntry.is_expired,
      show ¬ ((3600:ℚ) < 0 - 0) from by norm_num,
      show ¬ ((3600:ℚ) < 0) from by norm_num]
  · simp [cachedCallTwice, cachedCall, mkMemoryCache, MemoryCache.get,
      MemoryCache.set, evictLoop, lookupKey, setKey, removeKey, condErase,
      eraseFirst, ttlOrDefault, CacheEntry.is_expired,
      show ¬ ((3600:ℚ) < 0 - 0) from by norm_num,
      show ¬ ((3600:ℚ) < 0) from by norm_num]

/-- C2 (amended): an entry created by `set` with `ttl == 0` is *not*
immediately expired: because `0` is falsy, `ttl = ttl or self.default_ttl`
replaces it by the default TTL, in `MemoryCache.set` and `FileCache.set`
alike.  The stored entry carries `ttl = default_ttl`, and any `get` of
that key within `default_ttl` of the `set` returns the stored value
rather than a miss. -/
theorem C2_ttl_zero_uses_default :
    (∀ (c : MemoryCache) (now : ℚ) (key : Key) (v : PyVal),
      lookupKey key (c.set now key v (some 0)).cache =
        some (CacheEntry.mk v now c.default_ttl 0)) ∧
    (∀ (c : MemoryCache) (now now₂ : ℚ) (key : Key) (v : PyVal),
      now₂ - now ≤ c.default_ttl →
      ((c.set now key v (some 0)).get now₂ key).1 = v) ∧
    (∀ (fc : FileCache) (now : ℚ) (key : Key) (v : PyVal),
      lookupKey key (fc.set now key v (some 0)).files =
        some (FileContent.full (CacheEntry.mk v now fc.default_ttl 0))) ∧
    (∀ (fc : FileCache) (now now₂ : ℚ) (key : Key) (v : PyVal),
      now₂ - now ≤ fc.default_ttl →
      ((fc.set now key v (some 0)).get now₂ key).1 = v) := by
  have hzero : ∀ d : ℚ, ttlOrDefault (some 0) d = d := by
    intro d
    simp [ttlOrDefault]
  have hmem : ∀ (c : MemoryCache) (now : ℚ) (key : Key) (v : PyVal),
      lookupKey key (c.set now key v (some 0)).cache =
        some (CacheEntry.mk v now c.default_ttl 0) := by
    intro c now key v
    rw [MemoryCache.set_eq]
    have h := lookupKey_setKey_self key
      (CacheEntry.mk v now (ttlOrDefault (some 0) c.default_ttl) 0)
      (evictLoop c.max_size c.cache
        (if (lookupKey key c.cache).isSome then condErase key c.access_order
         else c.access_order)).1
    rw [hzero] at h
    exact h
  have hfile : ∀ (fc : FileCache) (now : ℚ) (key : Key) (v : PyVal),
      lookupKey key (fc.set now key v (some 0)).files =
        some (FileContent.full (CacheEntry.mk v now fc.default_ttl 0)) := by
    intro fc now key v
    simp only [FileCache.set, hzero]
    exact lookupKey_setKey_self key _ _
  refine ⟨hmem, ?_, hfile, ?_⟩
  · intro c now now₂ key v h
    have hexp : (CacheEntry.mk v now c.default_ttl 0).is_expired now₂ = false := by
      simp only [CacheEntry.is_expired, decide_eq_false_iff_not]
      exact not_lt.mpr h
    rw [MemoryCache.get_hit (c.set now key v (some 0)) now₂ key _
      (hmem c now key v) hexp]
  · intro fc now now₂ key v h
    have hexp : (CacheEntry.mk v now fc.default_ttl 0).is_expired now₂ = false := by
      simp only [CacheEntry.is_expired, decide_eq_false_iff_not]
      exact not_lt.mpr h
    rw [FileCache.get_full_hit (fc.set now key v (some 0)) now₂ key _
      (hfile fc now key v) hexp]

/-- Witness for C2: concrete `set(k, 7, ttl=0)` at time 0 on both caches;
the stored TTL is the default 3600 and a `get` at time 1 returns 7. -/
theorem C2_ttl_zero_uses_default_witness :
    lookupKey "k" ((mkMemoryCache 3600 1000).set 0 "k" (PyVal.int 7)
        (some 0)).cache =
      some (CacheEntry.mk (PyVal.int 7) 0 (mkMemoryCache 3600 1000).default_ttl 0) ∧
    (((mkMemoryCache 3600 1000).set 0 "k" (PyVal.int 7) (some 0)).get 1 "k").1 =
      PyVal.int 7 ∧
    lookupKey "k" ((⟨3600, []⟩ : FileCache).set 0 "k" (PyVal.int 7)
        (some 0)).files =
      some (FileContent.full
        (CacheEntry.mk (PyVal.int 7) 0 (⟨3600, []⟩ : FileCache).default_ttl 0)) ∧
    (((⟨3600, []⟩ : FileCache).set 0 "k" (PyVal.int 7) (some 0)).get 1 "k").1 =
      PyVal.int 7 :=
  ⟨C2_ttl_zero_uses_default.1 (mkMemoryCache 3600 1000) 0 "k" (PyVal.int 7),
    C2_ttl_zero_uses_default.2.1 (mkMemoryCache 3600 1000) 0 1 "k" (PyVal.int 7)
      (by norm_num [mkMemoryCache]),
    C2_ttl_zero_uses_default.2.2.1 ⟨3600, []⟩ 0 "k" (PyVal.int 7),
    C2_ttl_zero_uses_default.2.2.2 ⟨3600, []⟩ 0 1 "k" (PyVal.int 7)
      (by norm_num)⟩

/-- Counterexample for C2: `set("k", 7, ttl=0)` then `get("k")` at the
same instant returns the stored 7, not a miss — the entry is not
"immediately expired", because `ttl or self.default_ttl` maps `0` to the
default. -/
theorem C2_counterexample :
    (((mkMemoryCache 3600 1000).set 0 "k" (PyVal.int 7) (some 0)).get 0 "k").1 =
        PyVal.int 7 ∧
      ¬ ((((mkMemoryCache 3600 1000).set 0 "k" (PyVal.int 7) (some 0)).get 0
          "k").1 = PyVal.none) := by
  constructor
  · simp [mkMemoryCache, MemoryCache.get, MemoryCache.set, evictLoop,
      lookupKey, setKey, removeKey, condErase, eraseFirst, ttlOrDefault,
      CacheEntry.is_expired,
      show ¬ ((3600:ℚ) < 0 - 0) from by norm_num,
      show ¬ ((3600:ℚ) < 0) from by norm_num]
  · simp [mkMemoryCache, MemoryCache.get, MemoryCache.set, evictLoop,
      lookupKey, setKey, removeKey, condErase, eraseFirst, ttlOrDefault,
      CacheEntry.is_expired,
      show ¬ ((3600:ℚ) < 0 - 0) from by norm_num,
      show ¬ ((3600:ℚ) < 0) from by norm_num]

/-- C4 (amended): `FileCache.set` serializes the full `CacheEntry`
(value + metadata) but writes it directly to `{key}.cache` with
`open(path, 'wb')` + `pickle.dump` — there is no temporary file and no
rename.  The observable write sequence therefore passes through a state
in which `{key}.cache` exists truncated/partially written; a later `get`
of that state treats the file as a miss and best-effort deletes it. -/
theorem C4_set_writes_in_place :
    ∀ (fc : FileCache) (now : ℚ) (key : Key) (v : PyVal) (ttl : Option ℚ),
      FileCache.setStates fc now key v ttl =
        [fc,
          { fc with files := setKey key FileContent.corrupt fc.files },
          FileCache.set fc now key v ttl] ∧
      lookupKey key
          ({ fc with files := setKey key FileContent.corrupt fc.files }).files =
        some FileContent.corrupt ∧
      lookupKey key (FileCache.set fc now key v ttl).files =
        some (FileContent.full
          (CacheEntry.mk v now (ttlOrDefault ttl fc.default_ttl) 0)) ∧
      ({ fc with files := setKey key FileContent.corrupt fc.files } :
          FileCache).get now key =
        (PyVal.none,
          { fc with files := removeKey key (setKey key FileContent.corrupt fc.files) }) := by
  intro fc now key v ttl
  refine ⟨by simp [FileCache.setStates, FileCache.set], ?_, ?_, ?_⟩
  · exact lookupKey_setKey_self key _ _
  · simp only [FileCache.set]
    exact lookupKey_setKey_self key _ _
  · exact FileCache.get_corrupt _ now key (lookupKey_setKey_self key _ _)

/-- Counterexample for C4: on an empty cache directory, the state after
the first primitive step of `set("k", 1)` (the `open(path, 'wb')`
truncation) already has a partially written `k.cache` at the final path —
an interrupted write leaves it observable, contradicting atomicity. -/
theorem C4_counterexample :
    lookupKey "k"
        ((FileCache.setStates ⟨3600, []⟩ 0 "k" (PyVal.int 1) Option.none).getD 1
          ⟨3600, []⟩).files = some FileContent.corrupt ∧
      ¬ (lookupKey "k"
          ((FileCache.setStates ⟨3600, []⟩ 0 "k" (PyVal.int 1) Option.none).getD 1
            ⟨3600, []⟩).files = Option.none) := by
  constructor
  · simp [FileCache.setStates, setKey, lookupKey, ttlOrDefault]
  · simp [FileCache.setStates, setKey, lookupKey, ttlOrDefault]

/-- C8: for every key whose file is missing or whose content is
unreadable/structurally invalid (anything `pickle.load` / the attribute
access raises on), `FileCache.get` returns a miss — the total function
returns `None` rather than propagating the caught exception — the bad
file is best-effort deleted (absent afterwards), and every other key's
file is untouched. -/
theorem C8_bad_file_is_miss (fc : FileCache) (now : ℚ) (key : Key)
    (hnodup : (fc.files.map Prod.fst).Nodup)
    (hbad : lookupKey key fc.files = Option.none ∨
      lookupKey key fc.files = some FileContent.corrupt) :
    (fc.get now key).1 = PyVal.none ∧
      lookupKey key (fc.get now key).2.files = Option.none ∧
      (∀ k₂, k₂ ≠ key →
        lookupKey k₂ (fc.get now key).2.files = lookupKey k₂ fc.files) := by
  rcases hbad with hb | hb
  · rw [FileCache.get_missing fc now key hb]
    exact ⟨rfl, hb, fun _ _ => rfl⟩
  · rw [FileCache.get_corrupt fc now key hb]
    exact ⟨rfl, lookupKey_removeKey_self key fc.files hnodup,
      fun k₂ h₂ => lookupKey_removeKey_ne key k₂ fc.files h₂⟩

/-- Witness for C8: a directory holding a good entry under `"good"` and a
corrupted file under `"bad"`: `get("bad")` misses, deletes `bad.cache`,
and leaves `good.cache` intact. -/
theorem C8_bad_file_is_miss_witness :
    ((⟨3600, [("good", FileContent.full (CacheEntry.mk (PyVal.int 1) 0 3600 0)),
        ("bad", FileContent.corrupt)]⟩ : FileCache).get 0 "bad").1 = PyVal.none ∧
      lookupKey "bad"
        ((⟨3600, [("good", FileContent.full (CacheEntry.mk (PyVal.int 1) 0 3600 0)),
            ("bad", FileContent.corrupt)]⟩ : FileCache).get 0 "bad").2.files =
        Option.none ∧
      lookupKey "good"
        ((⟨3600, [("good", FileContent.full (CacheEntry.mk (PyVal.int 1) 0 3600 0)),
            ("bad", FileContent.corrupt)]⟩ : FileCache).get 0 "bad").2.files =
        lookupKey "good"
          (⟨3600, [("good", FileContent.full (CacheEntry.mk (PyVal.int 1) 0 3600 0)),
            ("bad", FileContent.corrupt)]⟩ : FileCache).files := by
  have h := C8_bad_file_is_miss
    ⟨3600, [("good", FileContent.full (CacheEntry.mk (PyVal.int 1) 0 3600 0)),
      ("bad", FileContent.corrupt)]⟩ 0 "bad"
    (by simp)
    (Or.inr (by simp [lookupKey]))
  exact ⟨h.1, h.2.1, h.2.2 "good" (by simp)⟩

/-- C5 (amended): for every `RateLimiter` with positive capacity and
window and every sequence of `acquire` / `wait_time` / `reset` calls with
*nonnegative* requested token counts and monotone wall-clock readings,
the token balance satisfies `0 ≤ tokens ≤ capacity` after each call: the
clamped refill in `acquire` never pushes the balance above capacity and a
failed `acquire` deducts nothing.  The nonnegativity proviso is forced:
the code never validates the requested count, and a negative request is
"granted" by *adding* tokens (see the counterexample). -/
theorem C5_tokens_in_bounds (s : RateLimiter) (ops : List RLOp)
    (hcap : 0 < s.requests_per_window) (hwin : 0 < s.window_seconds)
    (h : s.InBounds) (hv : RLOpsValid s ops) :
    (runRLOps s ops).InBounds :=
  runRLOps_InBounds ops s hcap hwin h hv

/-- Witness for C5: a full bucket of 10 per 10 s; a granted `acquire`,
a `wait_time` and a `reset` leave the balance within `[0, 10]`. -/
theorem C5_tokens_in_bounds_witness :
    (runRLOps (mkRateLimiter 10 10 0)
        [RLOp.acquire 1 1, RLOp.waitTime 1, RLOp.reset 2]).InBounds :=
  C5_tokens_in_bounds (mkRateLimiter 10 10 0)
    [RLOp.acquire 1 1, RLOp.waitTime 1, RLOp.reset 2]
    (by norm_num [mkRateLimiter])
    (by norm_num [mkRateLimiter])
    ⟨by norm_num [mkRateLimiter], by norm_num [mkRateLimiter]⟩
    (by norm_num [RLOpsValid, RLOp.apply, RateLimiter.acquire,
      RateLimiter.wait_time, RateLimiter.reset, mkRateLimiter])

/-- Counterexample for C5: with a full bucket of capacity 10,
`acquire(-1)` succeeds (`tokens >= -1`) and *deducts* `-1`, leaving
`tokens = 11 > capacity` — with "any requested token counts" the bound
`tokens ≤ capacity` fails. -/
theorem C5_counterexample :
    ((mkRateLimiter 10 10 0).acquire 0 (-1)).2.tokens = 11 ∧
      ¬ (((mkRateLimiter 10 10 0).acquire 0 (-1)).2.tokens ≤
        ((mkRateLimiter 10 10 0).acquire 0 (-1)).2.requests_per_window) := by
  constructor
  · norm_num [mkRateLimiter, RateLimiter.acquire]
  · norm_num [mkRateLimiter, RateLimiter.acquire]

/-- C6 (amended): `wait_time` performs no refill and no mutation at all —
it reads the current balance and returns the state unchanged (`tokens`
and `last_refill` both); only `acquire` and `reset` mutate the limiter.
Consequently, after a long idle period `wait_time` can return a positive
wait for a request that an immediate `acquire` (which does refill) would
satisfy: a bucket emptied at time 0 still reports `wait_time(1) = 1` at
any later time, even though `acquire(1)` at time 10 succeeds. -/
theorem C6_wait_time_is_pure :
    (∀ (s : RateLimiter) (req : ℚ), (s.wait_time req).2 = s) ∧
      ((((mkRateLimiter 10 10 0).acquire 0 10).2.wait_time 1).2 =
        ((mkRateLimiter 10 10 0).acquire 0 10).2 ∧
      (((mkRateLimiter 10 10 0).acquire 0 10).2.wait_time 1).1 = 1 ∧
      (((mkRateLimiter 10 10 0).acquire 0 10).2.acquire 10 1).1 = true) := by
  refine ⟨RateLimiter.wait_time_frame, RateLimiter.wait_time_frame _ _, ?_, ?_⟩
  · norm_num [mkRateLimiter, RateLimiter.acquire, RateLimiter.wait_time]
  · norm_num [mkRateLimiter, RateLimiter.acquire]

/-- Counterexample for C6: the bucket is emptied at time 0
(`acquire(10)`), then left idle for 10 seconds — a refill at call time
would restore all 10 tokens and make `wait_time(1) = 0`.  The code's
`wait_time` neither updates `tokens` / `last_refill` (the state is
returned unchanged) nor returns 0: it returns 1, computed from the stale
balance. -/
theorem C6_counterexample :
    (((mkRateLimiter 10 10 0).acquire 0 10).2.wait_time 1).2 =
        ((mkRateLimiter 10 10 0).acquire 0 10).2 ∧
      ¬ ((((mkRateLimiter 10 10 0).acquire 0 10).2.wait_time 1).1 = 0) ∧
      (((mkRateLimiter 10 10 0).acquire 0 10).2.acquire 10 1).1 = true := by
  refine ⟨RateLimiter.wait_time_frame _ _, ?_, ?_⟩
  · norm_num [mkRateLimiter, RateLimiter.acquire, RateLimiter.wait_time]
  · norm_num [mkRateLimiter, RateLimiter.acquire]

/-- C10: in the `rate_limited` wrapper with `wait=true`, the wrapped
function is always invoked: when the first `acquire` fails the wrapper
sleeps for `wait_time`, retries `acquire` exactly once with its boolean
result discarded, and then calls the wrapped function unconditionally —
concrete instance: requesting 2 tokens from a capacity-1 limiter makes
both `acquire`s fail, yet the function is invoked and nothing is
raised. -/
theorem C10_wait_invokes_unconditionally :
    (∀ (s : RateLimiter) (now req : ℚ),
      (rateLimitedCall s now req true).invoked = true ∧
        (rateLimitedCall s now req true).raised = false) ∧
      ((rateLimitedCall (mkRateLimiter 1 1 0) 0 2 true).ok₁ = false ∧
        (rateLimitedCall (mkRateLimiter 1 1 0) 0 2 true).ok₂ = some false ∧
        (rateLimitedCall (mkRateLimiter 1 1 0) 0 2 true).invoked = true) := by
  constructor
  · intro s now req
    simp only [rateLimitedCall]
    by_cases h : (s.acquire now req).1 = true
    · simp [h]
    · simp [h]
  · refine ⟨?_, ?_, ?_⟩ <;>
      norm_num [rateLimitedCall, mkRateLimiter, RateLimiter.acquire,
        RateLimiter.wait_time]
